import Mathlib

/-!
Shallow embedding of the portfolio ledger and metrics engine of the
repository (src/services/portfolioService.ts and the snapshot tracker of
src/hooks/usePortfolio.ts).  JS numbers are modelled as rationals, JS
strings as `String`, optional fields as `Option`, and the JS `Map` used by
`addHoldings` as an association list with `Map.set` insertion-order
semantics.  Functions that visibly write through an alias of their input
array (`sellHolding`, `addDividend`) return a pair
(post-call state of the caller's array, returned array); the others only
write to objects created inside the function body, so they are plain
functions of their input.
-/

namespace Portfolio

/-- The `type` discriminant of a `BuySellTransaction` (`'BUY' | 'SELL'`). -/
inductive TxType where
  | buy
  | sell
deriving DecidableEq

/-- `Transaction = BuySellTransaction | DividendTransaction` from src/types.ts.
`buySell` carries id, date, type, quantity, price, cost; `dividend` carries
id, date, amount. -/
inductive Transaction where
  | buySell (id : String) (date : String) (ty : TxType) (quantity price cost : ℚ)
  | dividend (id : String) (date : String) (amount : ℚ)
deriving DecidableEq

/-- `PortfolioHolding` from src/types.ts (the `overview` bag, unused by every
function modelled here, is omitted). -/
structure PortfolioHolding where
  ticker : String
  companyName : String
  quantity : ℚ
  averageBuyPrice : ℚ
  totalInvestment : ℚ
  transactions : List Transaction
  sector : Option String
  currentPrice : Option ℚ
  dayChangeValue : Option ℚ
  dataSource : Option String
deriving DecidableEq

/-- `PortfolioSnapshot` from src/types.ts. -/
structure PortfolioSnapshot where
  date : String
  value : ℚ
deriving DecidableEq

/-- `PortfolioMetrics` from src/types.ts (without the optional
`lastRefreshed`, which `calculatePortfolioMetrics` never sets). -/
structure PortfolioMetrics where
  totalInvestment : ℚ
  currentValue : ℚ
  totalDividends : ℚ
  totalGainLoss : ℚ
  totalGainLossPercent : ℚ
  dayGainLoss : ℚ
  dayGainLossPercent : ℚ
deriving DecidableEq

/-- A JS `Map<string, PortfolioHolding>` as an association list in insertion
order. -/
abbrev HoldingMap := List (String × PortfolioHolding)

/-- JS `Map.prototype.set`: replace the value in place when the key is
present (keeping its position), otherwise append at the end. -/
def mapSet (m : HoldingMap) (k : String) (v : PortfolioHolding) : HoldingMap :=
  if m.any (fun p => p.1 = k) then
    m.map (fun p => if p.1 = k then (k, v) else p)
  else m ++ [(k, v)]

/-- JS `Map.prototype.get`. -/
def mapGet (m : HoldingMap) (k : String) : Option PortfolioHolding :=
  (m.find? (fun p => p.1 = k)).map Prod.snd

/-- One step of the transaction walk at portfolioService.ts lines 95-104:
a BUY adds its quantity and cost, a SELL subtracts its quantity, anything
else (a DIVIDEND) is ignored.  The accumulator is
(totalQuantity, totalCost). -/
def aggregateStep (acc : ℚ × ℚ) (t : Transaction) : ℚ × ℚ :=
  match t with
  | .buySell _ _ .buy q _ c => (acc.1 + q, acc.2 + c)
  | .buySell _ _ .sell q _ _ => (acc.1 - q, acc.2)
  | .dividend _ _ _ => acc

/-- The holding aggregator used by `addHoldings` when merging transaction
histories: walk the transactions accumulating (quantity, totalInvestment). -/
def aggregate (txs : List Transaction) : ℚ × ℚ :=
  txs.foldl aggregateStep (0, 0)

/-- `totalQuantity > 0 ? totalCost / totalQuantity : 0` (portfolioService.ts
line 107 and line 64). -/
def avgBuyPrice (totalQuantity totalCost : ℚ) : ℚ :=
  if 0 < totalQuantity then totalCost / totalQuantity else 0

/-- JS `a || b` on strings: `""` is falsy. -/
def jsOrString (a b : String) : String :=
  if a = "" then b else a

/-- JS `a || b` on an optional string: `undefined` and `""` are falsy. -/
def jsOrOptStr (a b : Option String) : Option String :=
  match a with
  | some s => if s = "" then b else some s
  | none => b

/-- The `isUpdate` (refresh) branch of `addHoldings` (lines 85-89): only the
live fields of the existing holding are overwritten. -/
def refreshHolding (existing incoming : PortfolioHolding) : PortfolioHolding :=
  { existing with
    currentPrice := incoming.currentPrice
    dayChangeValue := incoming.dayChangeValue
    companyName := jsOrString incoming.companyName existing.companyName
    sector := jsOrOptStr incoming.sector existing.sector }

/-- The non-refresh branch of `addHoldings` (lines 91-107): concatenate the
transaction histories and recompute the derived fields with `aggregate`. -/
def mergeHolding (existing incoming : PortfolioHolding) : PortfolioHolding :=
  let txs := existing.transactions ++ incoming.transactions
  let agg := aggregate txs
  { existing with
    transactions := txs
    quantity := agg.1
    totalInvestment := agg.2
    averageBuyPrice := avgBuyPrice agg.1 agg.2 }

/-- The body of the `newHoldings.forEach` loop of `addHoldings`
(lines 81-112).  Note that the `else` branch inserting an unmatched incoming
holding runs for both values of `isUpdate`. -/
def addHoldingsStep (isUpdate : Bool) (m : HoldingMap) (nh : PortfolioHolding) : HoldingMap :=
  match mapGet m nh.ticker with
  | some existing =>
      if isUpdate then mapSet m nh.ticker (refreshHolding existing nh)
      else mapSet m nh.ticker (mergeHolding existing nh)
  | none => mapSet m nh.ticker nh

/-- `addHoldings` (portfolioService.ts lines 72-115).  The map is seeded with
shallow copies of the current holdings (`{...h}`), so the input array is
never written through; the result is `Array.from(map.values())`. -/
def addHoldings (currentHoldings newHoldings : List PortfolioHolding) (isUpdate : Bool) :
    List PortfolioHolding :=
  let m0 := currentHoldings.foldl (fun m h => mapSet m h.ticker h) []
  let m1 := newHoldings.foldl (addHoldingsStep isUpdate) m0
  m1.map Prod.snd

/-- The SELL transaction built by `sellHolding` (lines 132-139); its `cost`
field holds the proceeds `quantity * price`. -/
def mkSellTx (id date : String) (quantity price : ℚ) : Transaction :=
  .buySell id date .sell quantity price (quantity * price)

/-- The in-place writes of `sellHolding` (lines 141-142): push the SELL
transaction and decrement the quantity. -/
def applySell (quantity : ℚ) (tx : Transaction) (h : PortfolioHolding) : PortfolioHolding :=
  { h with
    transactions := h.transactions ++ [tx]
    quantity := h.quantity - quantity }

/-- Apply `f` to the first holding with the given ticker (the object that
`Array.prototype.find` aliases); everything else is untouched. -/
def mutateFirst (l : List PortfolioHolding) (ticker : String)
    (f : PortfolioHolding → PortfolioHolding) : List PortfolioHolding :=
  match l with
  | [] => []
  | h :: t => if h.ticker = ticker then f h :: t else h :: mutateFirst t ticker f

/-- The `0.0001` residue guard of `sellHolding` line 144. -/
def sellEpsilon : ℚ := 1 / 10000

/-- `sellHolding` (portfolioService.ts lines 120-149).  Returns
(post-call state of the caller's array, returned array): the source pushes
onto `holdingToSell.transactions` and decrements `holdingToSell.quantity`
through the alias produced by `find`, so the matched element of the input
array is mutated; the returned array is either a `filter` dropping the
ticker or a fresh shallow copy `[...currentHoldings]`. -/
def sellHolding (currentHoldings : List PortfolioHolding) (ticker : String)
    (quantity price : ℚ) (id date : String) :
    List PortfolioHolding × List PortfolioHolding :=
  match currentHoldings.find? (fun h => h.ticker = ticker) with
  | none => (currentHoldings, currentHoldings)
  | some holdingToSell =>
      if holdingToSell.quantity < quantity then (currentHoldings, currentHoldings)
      else
        let tx := mkSellTx id date quantity price
        let post := mutateFirst currentHoldings ticker (applySell quantity tx)
        if holdingToSell.quantity - quantity ≤ sellEpsilon then
          (post, post.filter (fun h => ¬ h.ticker = ticker))
        else (post, post)

/-- The DIVIDEND transaction built by `addDividend` (lines 166-171). -/
def mkDividendTx (id date : String) (amount : ℚ) : Transaction :=
  .dividend id date amount

/-- `addDividend` (portfolioService.ts lines 154-175).  Returns
(post-call state of the caller's array, returned array): the source pushes
the transaction onto the holding found inside the input array, then returns
a fresh shallow copy `[...currentHoldings]`. -/
def addDividend (currentHoldings : List PortfolioHolding) (ticker : String)
    (amount : ℚ) (date id : String) :
    List PortfolioHolding × List PortfolioHolding :=
  match currentHoldings.find? (fun h => h.ticker = ticker) with
  | none => (currentHoldings, currentHoldings)
  | some _ =>
      let post := mutateFirst currentHoldings ticker
        (fun h => { h with transactions := h.transactions ++ [mkDividendTx id date amount] })
      (post, post)

/-- `updateHolding` (portfolioService.ts lines 180-209).  The source copies
every holding (`map(h => ({...h}))`) before writing, so the input array and
its elements are untouched; absent ticker returns the input unchanged. -/
def updateHolding (currentHoldings : List PortfolioHolding) (ticker : String)
    (totalQuantity averagePrice : ℚ) (id date : String) : List PortfolioHolding :=
  if currentHoldings.any (fun h => h.ticker = ticker) then
    mutateFirst currentHoldings ticker (fun h =>
      { h with
        transactions := [Transaction.buySell id date .buy totalQuantity averagePrice
          (totalQuantity * averagePrice)]
        quantity := totalQuantity
        averageBuyPrice := averagePrice
        totalInvestment := totalQuantity * averagePrice })
  else currentHoldings

/-- Lookup in the `manualPrices` record. -/
def lookupPrice (manualPrices : List (String × ℚ)) (k : String) : Option ℚ :=
  (manualPrices.find? (fun p => p.1 = k)).map Prod.snd

/-- `manualPrices[h.ticker] ?? h.currentPrice` (line 226). -/
def effectivePrice (manualPrices : List (String × ℚ)) (h : PortfolioHolding) : Option ℚ :=
  match lookupPrice manualPrices h.ticker with
  | some p => some p
  | none => h.currentPrice

/-- `price ? price * h.quantity : h.totalInvestment` (line 227): a missing
price AND a zero price (falsy in JS) both fall back to the total
investment. -/
def holdingCurrentValue (manualPrices : List (String × ℚ)) (h : PortfolioHolding) : ℚ :=
  match effectivePrice manualPrices h with
  | some p => if p = 0 then h.totalInvestment else p * h.quantity
  | none => h.totalInvestment

/-- `h.dayChangeValue ? h.dayChangeValue * h.quantity : 0` (line 228). -/
def holdingDayChange (h : PortfolioHolding) : ℚ :=
  match h.dayChangeValue with
  | some d => if d = 0 then 0 else d * h.quantity
  | none => 0

/-- The inner `h.transactions.forEach` of lines 234-238 summing dividend
amounts. -/
def holdingDividends (h : PortfolioHolding) : ℚ :=
  h.transactions.foldl
    (fun acc t =>
      match t with
      | .dividend _ _ a => acc + a
      | _ => acc) 0

/-- The body of the `holdings.forEach` of lines 225-239; the accumulator is
(totalInvestment, currentValue, dayGainLoss, totalDividends). -/
def metricsStep (manualPrices : List (String × ℚ)) (acc : ℚ × ℚ × ℚ × ℚ)
    (h : PortfolioHolding) : ℚ × ℚ × ℚ × ℚ :=
  (acc.1 + h.totalInvestment,
   acc.2.1 + holdingCurrentValue manualPrices h,
   acc.2.2.1 + holdingDayChange h,
   acc.2.2.2 + holdingDividends h)

/-- The four accumulated sums of `calculatePortfolioMetrics`. -/
def metricsBase (holdings : List PortfolioHolding) (manualPrices : List (String × ℚ)) :
    ℚ × ℚ × ℚ × ℚ :=
  holdings.foldl (metricsStep manualPrices) (0, 0, 0, 0)

/-- `calculatePortfolioMetrics` (portfolioService.ts lines 214-253).  The
percentage divisions are guarded by `> 0` tests on their denominators. -/
def calculatePortfolioMetrics (holdings : List PortfolioHolding)
    (manualPrices : List (String × ℚ)) : PortfolioMetrics :=
  let b := metricsBase holdings manualPrices
  let ti := b.1
  let cv := b.2.1
  let dg := b.2.2.1
  let td := b.2.2.2
  let tgl := (cv - ti) + td
  { totalInvestment := ti
    currentValue := cv
    totalDividends := td
    totalGainLoss := tgl
    totalGainLossPercent := if 0 < ti then tgl / ti * 100 else 0
    dayGainLoss := dg
    dayGainLossPercent := if 0 < cv - dg then dg / (cv - dg) * 100 else 0 }

/-- JS `String.prototype.startsWith`: the receiver's characters begin with
the pattern's characters. -/
def strStartsWith (s t : String) : Bool := t.data.isPrefixOf s.data

/-- `addPortfolioSnapshot` (usePortfolio.ts lines 70-93).  `today` is the
calendar-date string and `nowIso` the full timestamp stored in the new
snapshot; an existing entry whose date starts with `today` is replaced
(`findIndex` + assignment), otherwise the snapshot is pushed, and a single
`shift()` drops the oldest entry when the length exceeds 365. -/
def addPortfolioSnapshot (history : List PortfolioSnapshot) (today nowIso : String)
    (value : ℚ) : List PortfolioSnapshot :=
  let newHistory :=
    match history.findIdx? (fun s => strStartsWith s.date today) with
    | some i => history.set i { date := nowIso, value := value }
    | none => history ++ [{ date := nowIso, value := value }]
  if 365 < newHistory.length then newHistory.tail else newHistory

/-- The quantity a transaction contributes as a BUY. -/
def txBuyQty : Transaction → ℚ
  | .buySell _ _ .buy q _ _ => q
  | _ => 0

/-- The quantity a transaction contributes as a SELL. -/
def txSellQty : Transaction → ℚ
  | .buySell _ _ .sell q _ _ => q
  | _ => 0

/-- The cost a transaction contributes as a BUY. -/
def txBuyCost : Transaction → ℚ
  | .buySell _ _ .buy _ _ c => c
  | _ => 0

/-- The valuation rule as claim C8 words it: the manual override if present,
else the live price, and only a holding with no known price at all is valued
at cost.  Stated for comparison against `holdingCurrentValue`, which is
translated from the source. -/
def claimedHoldingValue (manualPrices : List (String × ℚ)) (h : PortfolioHolding) : ℚ :=
  match effectivePrice manualPrices h with
  | some p => p * h.quantity
  | none => h.totalInvestment

/-- Every entry of the map stores a holding whose ticker is its key. -/
def WfMap (m : HoldingMap) : Prop := ∀ p ∈ m, p.2.ticker = p.1

/-- The fields of a holding that a refresh must not touch. -/
def RefreshFrameEq (v w : PortfolioHolding) : Prop :=
  w.ticker = v.ticker ∧ w.quantity = v.quantity ∧ w.averageBuyPrice = v.averageBuyPrice ∧
  w.totalInvestment = v.totalInvestment ∧ w.transactions = v.transactions ∧
  w.dataSource = v.dataSource

/-- A concrete BUY transaction used in witnesses. -/
def exTxBuyA : Transaction := .buySell "t1" "2024-01-01" .buy 10 3 30

/-- A concrete SELL transaction used in witnesses. -/
def exTxSellA : Transaction := .buySell "t2" "2024-02-01" .sell 4 5 20

/-- A concrete DIVIDEND transaction used in witnesses. -/
def exTxDivA : Transaction := .dividend "t3" "2024-03-01" 9

/-- A concrete holding with ticker "A" and quantity 10. -/
def exHoldingA : PortfolioHolding :=
  { ticker := "A", companyName := "Acme", quantity := 10, averageBuyPrice := 3,
    totalInvestment := 30, transactions := [exTxBuyA], sector := none,
    currentPrice := none, dayChangeValue := none, dataSource := none }

/-- A concrete holding with ticker "B". -/
def exHoldingB : PortfolioHolding :=
  { ticker := "B", companyName := "", quantity := 1, averageBuyPrice := 2,
    totalInvestment := 2, transactions := [], sector := none,
    currentPrice := some 5, dayChangeValue := none, dataSource := none }

/-- A concrete holding with ticker "C", quantity 5, at-cost value 100, and no
live price. -/
def exHoldingC : PortfolioHolding :=
  { ticker := "C", companyName := "", quantity := 5, averageBuyPrice := 20,
    totalInvestment := 100, transactions := [], sector := none,
    currentPrice := none, dayChangeValue := none, dataSource := none }

/-- A concrete refresh payload entry for ticker "A". -/
def exIncomingA : PortfolioHolding :=
  { ticker := "A", companyName := "Acme Ltd", quantity := 0, averageBuyPrice := 0,
    totalInvestment := 0, transactions := [], sector := some "Banking",
    currentPrice := some 7, dayChangeValue := some 1, dataSource := none }

theorem find?_append_of_none {α : Type} {p : α → Bool} {l₁ l₂ : List α}
    (h : l₁.find? p = none) : (l₁ ++ l₂).find? p = l₂.find? p := by
  simp [List.find?_append, h]

theorem any_key_iff (m : HoldingMap) (k : String) :
    m.any (fun p => p.1 = k) = true ↔ k ∈ m.map Prod.fst := by
  simp [List.any_eq_true, List.mem_map]

theorem find?_map_replace (m : HoldingMap) (k : String) (v : PortfolioHolding) :
    (m.map (fun p => if p.1 = k then (k, v) else p)).find? (fun p => p.1 = k)
      = (m.find? (fun p => p.1 = k)).map (fun _ => (k, v)) := by
  induction m with
  | nil => rfl
  | cons p t ih =>
      by_cases hp : p.1 = k
      · simp [hp, List.find?_cons_of_pos]
      · simp only [List.map_cons, if_neg hp]
        rw [List.find?_cons_of_neg, List.find?_cons_of_neg, ih] <;> simp [hp]

theorem find?_map_replace_ne (m : HoldingMap) (k kq : String) (v : PortfolioHolding)
    (hne : kq ≠ k) :
    (m.map (fun p => if p.1 = k then (k, v) else p)).find? (fun p => p.1 = kq)
      = m.find? (fun p => p.1 = kq) := by
  induction m with
  | nil => rfl
  | cons p t ih =>
      by_cases hp : p.1 = k
      · have hkq : ¬ k = kq := fun hh => hne hh.symm
        simp only [List.map_cons, if_pos hp]
        rw [List.find?_cons_of_neg, List.find?_cons_of_neg, ih]
        · simp [hp, hkq]
        · simp [hkq]
      · simp only [List.map_cons, if_neg hp]
        by_cases hq : p.1 = kq
        · rw [List.find?_cons_of_pos, List.find?_cons_of_pos] <;> simp [hq]
        · rw [List.find?_cons_of_neg, List.find?_cons_of_neg, ih] <;> simp [hq]

theorem mapGet_mapSet_self (m : HoldingMap) (k : String) (v : PortfolioHolding) :
    mapGet (mapSet m k v) k = some v := by
  by_cases h : m.any (fun p => p.1 = k) = true
  · rw [mapGet, mapSet, if_pos h, find?_map_replace]
    have hex : ∃ x ∈ m, (fun p : String × PortfolioHolding => decide (p.1 = k)) x := by
      simpa [List.any_eq_true] using h
    obtain ⟨x, hx, hpx⟩ := hex
    have : (m.find? (fun p => p.1 = k)).isSome := by
      rw [List.find?_isSome]; exact ⟨x, hx, hpx⟩
    obtain ⟨y, hy⟩ := Option.isSome_iff_exists.mp this
    rw [hy]; rfl
  · have hn : m.find? (fun p => p.1 = k) = none := by
      rw [List.find?_eq_none]
      intro x hx hpx
      exact h (by rw [List.any_eq_true]; exact ⟨x, hx, hpx⟩)
    rw [mapGet, mapSet, if_neg h, List.find?_append, hn]
    simp [mapGet]

theorem mapGet_mapSet_ne (m : HoldingMap) (k kq : String) (v : PortfolioHolding)
    (hne : kq ≠ k) : mapGet (mapSet m k v) kq = mapGet m kq := by
  by_cases h : m.any (fun p => p.1 = k) = true
  · rw [mapGet, mapSet, if_pos h, find?_map_replace_ne m k kq v hne, mapGet]
  · rw [mapGet, mapSet, if_neg h, List.find?_append, mapGet]
    have hkq : ¬ k = kq := fun hh => hne hh.symm
    cases hf : m.find? (fun p => p.1 = kq) with
    | some x => rfl
    | none => simp [hkq]

theorem keys_mapSet_of_mem (m : HoldingMap) (k : String) (v : PortfolioHolding)
    (h : m.any (fun p => p.1 = k) = true) :
    (mapSet m k v).map Prod.fst = m.map Prod.fst := by
  rw [mapSet, if_pos h, List.map_map]
  apply List.map_congr_left
  intro p hp
  by_cases hpk : p.1 = k <;> simp [hpk]

theorem keys_mapSet_of_not_mem (m : HoldingMap) (k : String) (v : PortfolioHolding)
    (h : ¬ m.any (fun p => p.1 = k) = true) :
    (mapSet m k v).map Prod.fst = m.map Prod.fst ++ [k] := by
  rw [mapSet, if_neg h, List.map_append]
  rfl

theorem mem_mapSet {m : HoldingMap} {k : String} {v : PortfolioHolding} {q}
    (h : q ∈ mapSet m k v) : q ∈ m ∨ q = (k, v) := by
  rw [mapSet] at h
  by_cases ha : m.any (fun p => p.1 = k) = true
  · rw [if_pos ha] at h
    obtain ⟨p, hp, hq⟩ := List.mem_map.mp h
    by_cases hpk : p.1 = k
    · right; rw [← hq]; simp [hpk]
    · left; rw [← hq]; simp only [if_neg hpk]; exact hp
  · rw [if_neg ha] at h
    rcases List.mem_append.mp h with h | h
    · left; exact h
    · right; simpa using h

theorem wf_mapSet {m : HoldingMap} {k : String} {v : PortfolioHolding}
    (hm : WfMap m) (hv : v.ticker = k) : WfMap (mapSet m k v) := by
  intro q hq
  rcases mem_mapSet hq with h | h
  · exact hm q h
  · rw [h]; exact hv

theorem mapGet_wf_ticker {m : HoldingMap} {k : String} {v : PortfolioHolding}
    (hm : WfMap m) (h : mapGet m k = some v) : v.ticker = k := by
  rw [mapGet] at h
  cases hf : m.find? (fun p => p.1 = k) with
  | none => rw [hf] at h; simp at h
  | some q =>
      rw [hf] at h
      have hq1 : q.1 = k := by simpa using List.find?_some hf
      have hq2 : q.2.ticker = q.1 := hm q (List.mem_of_find?_eq_some hf)
      have : q.2 = v := by simpa using h
      rw [← this, hq2, hq1]

theorem wf_refreshHolding {existing nh : PortfolioHolding} (h : existing.ticker = nh.ticker) :
    (refreshHolding existing nh).ticker = nh.ticker := h

theorem wf_addHoldingsStep {m : HoldingMap} (u : Bool) (nh : PortfolioHolding)
    (hm : WfMap m) : WfMap (addHoldingsStep u m nh) := by
  rw [addHoldingsStep]
  cases hg : mapGet m nh.ticker with
  | some existing =>
      have hex : existing.ticker = nh.ticker := mapGet_wf_ticker hm hg
      cases u with
      | true => simpa using wf_mapSet hm (show (refreshHolding existing nh).ticker = nh.ticker from hex)
      | false => simpa using wf_mapSet hm (show (mergeHolding existing nh).ticker = nh.ticker from hex)
  | none => simpa using wf_mapSet hm rfl

theorem wf_foldl_addHoldingsStep (u : Bool) (new : List PortfolioHolding) :
    ∀ m : HoldingMap, WfMap m → WfMap (new.foldl (addHoldingsStep u) m) := by
  induction new with
  | nil => intro m hm; simpa using hm
  | cons nh rest ih =>
      intro m hm
      simpa using ih (addHoldingsStep u m nh) (wf_addHoldingsStep u nh hm)

theorem foldl_mapSet_pairs (l : List PortfolioHolding) :
    ∀ acc : HoldingMap,
      (∀ h ∈ l, h.ticker ∉ acc.map Prod.fst) →
      (l.map PortfolioHolding.ticker).Nodup →
      l.foldl (fun m h => mapSet m h.ticker h) acc = acc ++ l.map (fun h => (h.ticker, h)) := by
  induction l with
  | nil => intro acc _ _; simp
  | cons h t ih =>
      intro acc hacc hnd
      have hmem : ¬ acc.any (fun p => p.1 = h.ticker) = true := by
        intro hc
        exact hacc h (List.mem_cons_self h t) ((any_key_iff acc h.ticker).mp hc)
      have hset : mapSet acc h.ticker h = acc ++ [(h.ticker, h)] := by
        rw [mapSet, if_neg hmem]
      have hnd' : (t.map PortfolioHolding.ticker).Nodup := (List.nodup_cons.mp (by simpa using hnd)).2
      have hhead : h.ticker ∉ t.map PortfolioHolding.ticker :=
        (List.nodup_cons.mp (by simpa using hnd)).1
      have hacc' : ∀ x ∈ t, x.ticker ∉ (acc ++ [(h.ticker, h)]).map Prod.fst := by
        intro x hx
        rw [List.map_append, List.mem_append]
        rintro (hc | hc)
        · exact hacc x (List.mem_cons_of_mem h hx) hc
        · have : x.ticker = h.ticker := by simpa using hc
          exact hhead (this ▸ List.mem_map_of_mem PortfolioHolding.ticker hx)
      calc (h :: t).foldl (fun m x => mapSet m x.ticker x) acc
          = t.foldl (fun m x => mapSet m x.ticker x) (acc ++ [(h.ticker, h)]) := by
            simp [hset]
        _ = acc ++ [(h.ticker, h)] ++ t.map (fun x => (x.ticker, x)) := ih _ hacc' hnd'
        _ = acc ++ (h :: t).map (fun x => (x.ticker, x)) := by simp

theorem seed_map_eq (cur : List PortfolioHolding)
    (hnd : (cur.map PortfolioHolding.ticker).Nodup) :
    cur.foldl (fun m h => mapSet m h.ticker h) ([] : HoldingMap)
      = cur.map (fun h => (h.ticker, h)) := by
  simpa using foldl_mapSet_pairs cur [] (by simp) hnd

theorem find?_map_pair (l : List PortfolioHolding) (t : String) :
    (l.map (fun h => (h.ticker, h))).find? (fun p => p.1 = t)
      = (l.find? (fun h => h.ticker = t)).map (fun h => (h.ticker, h)) := by
  induction l with
  | nil => rfl
  | cons h rest ih =>
      by_cases hp : h.ticker = t
      · simp [List.find?_cons_of_pos, hp]
      · simp only [List.map_cons]
        rw [List.find?_cons_of_neg, List.find?_cons_of_neg, ih] <;> simp [hp]

theorem find?_map_snd {m : HoldingMap} (t : String) (hm : WfMap m) :
    (m.map Prod.snd).find? (fun h => h.ticker = t)
      = (m.find? (fun p => p.1 = t)).map Prod.snd := by
  induction m with
  | nil => rfl
  | cons p rest ih =>
      have hwf : p.2.ticker = p.1 := hm p (List.mem_cons_self p rest)
      have hm' : WfMap rest := fun q hq => hm q (List.mem_cons_of_mem p hq)
      by_cases hp : p.1 = t
      · rw [List.map_cons, List.find?_cons_of_pos, List.find?_cons_of_pos] <;>
          simp [hp, hwf]
      · rw [List.map_cons, List.find?_cons_of_neg, List.find?_cons_of_neg, ih hm'] <;>
          simp [hp, hwf]

theorem mapGet_seed (cur : List PortfolioHolding) (t : String)
    (hnd : (cur.map PortfolioHolding.ticker).Nodup) :
    mapGet (cur.foldl (fun m h => mapSet m h.ticker h) []) t
      = cur.find? (fun h => h.ticker = t) := by
  rw [seed_map_eq cur hnd, mapGet, find?_map_pair]
  cases cur.find? (fun h => h.ticker = t) <;> rfl

theorem addHoldings_eq (cur new : List PortfolioHolding) (u : Bool) :
    addHoldings cur new u
      = (new.foldl (addHoldingsStep u)
          (cur.foldl (fun m h => mapSet m h.ticker h) [])).map Prod.snd := rfl

theorem wf_seed (cur : List PortfolioHolding) :
    WfMap (cur.foldl (fun m h => mapSet m h.ticker h) []) := by
  have main : ∀ (l : List PortfolioHolding) (acc : HoldingMap), WfMap acc →
      WfMap (l.foldl (fun m h => mapSet m h.ticker h) acc) := by
    intro l
    induction l with
    | nil => intro acc hacc; simpa using hacc
    | cons h t ih =>
        intro acc hacc
        simpa using ih (mapSet acc h.ticker h) (wf_mapSet hacc rfl)
  exact main cur [] (by intro p hp; simp at hp)

theorem refreshFrameEq_refl (v : PortfolioHolding) : RefreshFrameEq v v :=
  ⟨rfl, rfl, rfl, rfl, rfl, rfl⟩

theorem refreshFrameEq_trans {u v w : PortfolioHolding}
    (h1 : RefreshFrameEq u v) (h2 : RefreshFrameEq v w) : RefreshFrameEq u w :=
  ⟨h2.1.trans h1.1,
   h2.2.1.trans h1.2.1,
   h2.2.2.1.trans h1.2.2.1,
   h2.2.2.2.1.trans h1.2.2.2.1,
   h2.2.2.2.2.1.trans h1.2.2.2.2.1,
   h2.2.2.2.2.2.trans h1.2.2.2.2.2⟩

theorem refreshHolding_frame (existing nh : PortfolioHolding) :
    RefreshFrameEq existing (refreshHolding existing nh) :=
  ⟨rfl, rfl, rfl, rfl, rfl, rfl⟩

theorem mapGet_isSome_of_any {m : HoldingMap} {k : String}
    (h : m.any (fun p => p.1 = k) = true) : ∃ ex, mapGet m k = some ex := by
  have hex : ∃ x ∈ m, (fun p : String × PortfolioHolding => decide (p.1 = k)) x := by
    simpa [List.any_eq_true] using h
  obtain ⟨x, hx, hpx⟩ := hex
  have : (m.find? (fun p => p.1 = k)).isSome := by
    rw [List.find?_isSome]; exact ⟨x, hx, hpx⟩
  obtain ⟨y, hy⟩ := Option.isSome_iff_exists.mp this
  exact ⟨y.2, by rw [mapGet, hy]; rfl⟩

theorem refresh_fold_frame (new : List PortfolioHolding) :
    ∀ (m : HoldingMap) (t : String) (v : PortfolioHolding), mapGet m t = some v →
      ∃ v', mapGet (new.foldl (addHoldingsStep true) m) t = some v'
        ∧ RefreshFrameEq v v' := by
  induction new with
  | nil => intro m t v h; exact ⟨v, by simpa using h, refreshFrameEq_refl v⟩
  | cons nh rest ih =>
      intro m t v h
      rw [List.foldl_cons]
      cases hg : mapGet m nh.ticker with
      | none =>
          have hstep : addHoldingsStep true m nh = mapSet m nh.ticker nh := by
            rw [addHoldingsStep, hg]
          have hne : t ≠ nh.ticker := by
            intro he; rw [he, hg] at h; exact absurd h (by simp)
          exact ih _ t v (by rw [hstep, mapGet_mapSet_ne m nh.ticker t nh hne]; exact h)
      | some existing =>
          have hstep : addHoldingsStep true m nh
              = mapSet m nh.ticker (refreshHolding existing nh) := by
            rw [addHoldingsStep, hg]; rfl
          by_cases hts : t = nh.ticker
          · rw [← hts] at hg hstep
            have hev : existing = v := by rw [h] at hg; exact (Option.some.inj hg).symm
            obtain ⟨v', hv', hframe⟩ :=
              ih (mapSet m t (refreshHolding existing nh)) t (refreshHolding existing nh)
                (mapGet_mapSet_self m t (refreshHolding existing nh))
            refine ⟨v', by rw [hstep]; exact hv', ?_⟩
            exact refreshFrameEq_trans (hev ▸ refreshHolding_frame existing nh) hframe
          · exact ih _ t v
              (by rw [hstep, mapGet_mapSet_ne m nh.ticker t _ hts]; exact h)

theorem keys_foldl_refresh (new : List PortfolioHolding) :
    ∀ m : HoldingMap, (∀ x ∈ new, x.ticker ∈ m.map Prod.fst) →
      (new.foldl (addHoldingsStep true) m).map Prod.fst = m.map Prod.fst := by
  induction new with
  | nil => intro m _; simp
  | cons nh rest ih =>
      intro m hmem
      have hkey : nh.ticker ∈ m.map Prod.fst := hmem nh (List.mem_cons_self nh rest)
      have hany : m.any (fun p => p.1 = nh.ticker) = true := (any_key_iff m _).mpr hkey
      obtain ⟨ex, hex⟩ := mapGet_isSome_of_any hany
      have hstep : addHoldingsStep true m nh
          = mapSet m nh.ticker (refreshHolding ex nh) := by
        rw [addHoldingsStep, hex]; rfl
      have hkeys : (mapSet m nh.ticker (refreshHolding ex nh)).map Prod.fst
          = m.map Prod.fst := keys_mapSet_of_mem m _ _ hany
      have hmem' : ∀ x ∈ rest,
          x.ticker ∈ (mapSet m nh.ticker (refreshHolding ex nh)).map Prod.fst := by
        intro x hx; rw [hkeys]; exact hmem x (List.mem_cons_of_mem nh hx)
      rw [List.foldl_cons, hstep, ih _ hmem', hkeys]

theorem result_tickers_eq_keys {m : HoldingMap} (hm : WfMap m) :
    (m.map Prod.snd).map PortfolioHolding.ticker = m.map Prod.fst := by
  rw [List.map_map]
  exact List.map_congr_left (fun p hp => hm p hp)

/-- C1: the claim that a refresh never creates a new holding is false on the
code: the `else` branch of `addHoldings` inserts an incoming holding with an
unmatched ticker regardless of `isUpdate`.  Refreshing the empty ledger with
one incoming holding yields a ledger with that ticker instead of the empty
ticker list. -/
theorem C1_counterexample :
    (addHoldings [] [exHoldingB] true).map PortfolioHolding.ticker
      ≠ ([] : List PortfolioHolding).map PortfolioHolding.ticker := by decide

/-- C1 (amended): for a ledger with pairwise-distinct tickers,
`addHoldings` with `isRefresh = true` keeps exactly the input's tickers when
every incoming ticker matches an existing holding; an incoming holding whose
ticker matches no existing holding is not dropped but appended to the
ledger. -/
theorem C1_refresh_tickers (cur new : List PortfolioHolding) (nh : PortfolioHolding)
    (hnd : (cur.map PortfolioHolding.ticker).Nodup) :
    ((∀ x ∈ new, x.ticker ∈ cur.map PortfolioHolding.ticker) →
        (addHoldings cur new true).map PortfolioHolding.ticker
          = cur.map PortfolioHolding.ticker)
    ∧ (nh.ticker ∉ cur.map PortfolioHolding.ticker →
        addHoldings cur [nh] true = cur ++ [nh]) := by
  have hseedkeys : (cur.foldl (fun m h => mapSet m h.ticker h) []).map Prod.fst
      = cur.map PortfolioHolding.ticker := by
    rw [seed_map_eq cur hnd, List.map_map]; rfl
  constructor
  · intro hmem
    have hwf : WfMap (new.foldl (addHoldingsStep true)
        (cur.foldl (fun m h => mapSet m h.ticker h) [])) :=
      wf_foldl_addHoldingsStep true new _ (wf_seed cur)
    rw [addHoldings_eq, result_tickers_eq_keys hwf,
      keys_foldl_refresh new _ (by rw [hseedkeys]; exact hmem), hseedkeys]
  · intro hnotin
    have hget : mapGet (cur.foldl (fun m h => mapSet m h.ticker h) []) nh.ticker = none := by
      rw [mapGet_seed cur _ hnd, List.find?_eq_none]
      intro x hx hpx
      exact hnotin (by
        have : x.ticker = nh.ticker := by simpa using hpx
        exact this ▸ List.mem_map_of_mem PortfolioHolding.ticker hx)
    have hany : ¬ (cur.foldl (fun m h => mapSet m h.ticker h) []).any
        (fun p => p.1 = nh.ticker) = true := by
      rw [any_key_iff, hseedkeys]; exact hnotin
    rw [addHoldings_eq, List.foldl_cons, List.foldl_nil, addHoldingsStep, hget, mapSet,
      if_neg hany, List.map_append, seed_map_eq cur hnd, List.map_map]
    have hid : List.map (Prod.snd ∘ fun h : PortfolioHolding => (h.ticker, h)) cur
        = List.map id cur := List.map_congr_left (fun a _ => rfl)
    rw [hid, List.map_id]
    rfl

/-- Witness for the amended C1 theorem on a concrete ledger: refreshing
holding "A" keeps the single ticker "A", and refreshing with the unmatched
ticker "B" appends that holding. -/
theorem C1_refresh_tickers_witness :
    (addHoldings [exHoldingA] [exIncomingA] true).map PortfolioHolding.ticker
      = [exHoldingA].map PortfolioHolding.ticker
    ∧ addHoldings [exHoldingA] [exHoldingB] true = [exHoldingA] ++ [exHoldingB] :=
  ⟨(C1_refresh_tickers [exHoldingA] [exIncomingA] exHoldingB (by decide)).1 (by decide),
   (C1_refresh_tickers [exHoldingA] [exIncomingA] exHoldingB (by decide)).2 (by decide)⟩

/-- C2: a refresh (`isUpdate = true`) leaves, on every existing holding, the
transaction list, quantity, totalInvestment and averageBuyPrice unchanged:
whatever holding the refreshed ledger stores under an existing ticker agrees
with the original holding on all four fields. -/
theorem C2_refresh_frame (cur new : List PortfolioHolding) (t : String)
    (h h' : PortfolioHolding)
    (hnd : (cur.map PortfolioHolding.ticker).Nodup)
    (hfind : cur.find? (fun x => x.ticker = t) = some h)
    (hfind' : (addHoldings cur new true).find? (fun x => x.ticker = t) = some h') :
    h'.transactions = h.transactions ∧ h'.quantity = h.quantity ∧
    h'.totalInvestment = h.totalInvestment ∧ h'.averageBuyPrice = h.averageBuyPrice := by
  have hseed : mapGet (cur.foldl (fun m x => mapSet m x.ticker x) []) t = some h := by
    rw [mapGet_seed cur t hnd, hfind]
  obtain ⟨v', hv', hframe⟩ := refresh_fold_frame new _ t h hseed
  have hwf : WfMap (new.foldl (addHoldingsStep true)
      (cur.foldl (fun m x => mapSet m x.ticker x) [])) :=
    wf_foldl_addHoldingsStep true new _ (wf_seed cur)
  have hres : (addHoldings cur new true).find? (fun x => x.ticker = t) = some v' := by
    rw [addHoldings_eq, find?_map_snd t hwf]
    rw [mapGet] at hv'
    exact hv'
  rw [hres] at hfind'
  obtain rfl : v' = h' := Option.some.inj hfind'
  obtain ⟨_, hq, hab, hti, htx, _⟩ := hframe
  exact ⟨htx, hq, hti, hab⟩

/-- Witness for C2 on a concrete ledger: refreshing holding "A" with a
payload carrying a new price, name and sector leaves its transactions,
quantity, totalInvestment and averageBuyPrice equal to the originals. -/
theorem C2_refresh_frame_witness :
    (refreshHolding exHoldingA exIncomingA).transactions = exHoldingA.transactions ∧
    (refreshHolding exHoldingA exIncomingA).quantity = exHoldingA.quantity ∧
    (refreshHolding exHoldingA exIncomingA).totalInvestment = exHoldingA.totalInvestment ∧
    (refreshHolding exHoldingA exIncomingA).averageBuyPrice = exHoldingA.averageBuyPrice :=
  C2_refresh_frame [exHoldingA] [exIncomingA] "A" exHoldingA
    (refreshHolding exHoldingA exIncomingA) (by decide) (by decide) (by decide)

theorem find?_mutateFirst {l : List PortfolioHolding} {t : String} {h : PortfolioHolding}
    (f : PortfolioHolding → PortfolioHolding)
    (hfind : l.find? (fun x => x.ticker = t) = some h)
    (hf : ∀ x, (f x).ticker = x.ticker) :
    (mutateFirst l t f).find? (fun x => x.ticker = t) = some (f h) := by
  induction l with
  | nil => simp at hfind
  | cons a rest ih =>
      by_cases ha : a.ticker = t
      · have hah : a = h := by
          rw [List.find?_cons_of_pos _ (by simpa using ha)] at hfind
          exact Option.some.inj hfind
        rw [mutateFirst, if_pos ha, List.find?_cons_of_pos _ (by simpa using (hf a).trans ha), hah]
      · rw [List.find?_cons_of_neg _ (by simpa using ha)] at hfind
        rw [mutateFirst, if_neg ha, List.find?_cons_of_neg _ (by simpa using ha)]
        exact ih hfind

theorem forall₂_mutateFirst {R : PortfolioHolding → PortfolioHolding → Prop}
    (l : List PortfolioHolding) (t : String) (f : PortfolioHolding → PortfolioHolding)
    (hrefl : ∀ x, R x x) (hmut : ∀ x, x.ticker = t → R x (f x)) :
    List.Forall₂ R l (mutateFirst l t f) := by
  induction l with
  | nil => exact List.Forall₂.nil
  | cons a rest ih =>
      by_cases ha : a.ticker = t
      · rw [mutateFirst, if_pos ha]
        exact List.Forall₂.cons (hmut a ha) (List.forall₂_same.mpr (fun x _ => hrefl x))
      · rw [mutateFirst, if_neg ha]
        exact List.Forall₂.cons (hrefl a) ih

/-- C3 counterexample: the ledger mutation operations are not all pure:
`sellHolding` pushes the SELL transaction and decrements the quantity
through the alias into the caller's array, so after selling one unit of "A"
the input ledger's state differs from its pre-call value. -/
theorem C3_counterexample :
    (sellHolding [exHoldingA] "A" 1 5 "id1" "2024-05-01").1 ≠ [exHoldingA] := by
  have hfind : [exHoldingA].find? (fun x => x.ticker = "A") = some exHoldingA := by decide
  have hnlt : ¬ (exHoldingA.quantity < 1) := by decide
  have h1 : (sellHolding [exHoldingA] "A" 1 5 "id1" "2024-05-01").1
      = mutateFirst [exHoldingA] "A" (applySell 1 (mkSellTx "id1" "2024-05-01" 1 5)) := by
    by_cases hc : exHoldingA.quantity - 1 ≤ sellEpsilon <;>
      simp [sellHolding, hfind, hnlt, hc]
  have h2 : mutateFirst [exHoldingA] "A" (applySell 1 (mkSellTx "id1" "2024-05-01" 1 5))
      = [applySell 1 (mkSellTx "id1" "2024-05-01" 1 5) exHoldingA] := by
    simp [mutateFirst, exHoldingA]
  rw [h1, h2]
  intro heq
  have h3 : applySell 1 (mkSellTx "id1" "2024-05-01" 1 5) exHoldingA = exHoldingA := by
    simpa using heq
  have h4 := congrArg (fun x => x.transactions.length) h3
  simp [applySell, exHoldingA] at h4

/-- C3 (amended): `addHoldings` and `updateHolding` write only to copies and
leave their input unchanged, but `sellHolding` and `addDividend` mutate the
matched holding of the input ledger in place.  The post-call state of the
caller's array has the same length and keeps every holding's ticker,
companyName, averageBuyPrice, totalInvestment, sector, currentPrice,
dayChangeValue and dataSource; a holding whose ticker differs from the
target is fully unchanged, and `addDividend` also keeps every quantity. -/
theorem C3_mutation_frame (l : List PortfolioHolding) (t : String) (q p a : ℚ)
    (id d di dd : String) :
    List.Forall₂ (fun x y => y.ticker = x.ticker ∧ y.companyName = x.companyName ∧
        y.averageBuyPrice = x.averageBuyPrice ∧ y.totalInvestment = x.totalInvestment ∧
        y.sector = x.sector ∧ y.currentPrice = x.currentPrice ∧
        y.dayChangeValue = x.dayChangeValue ∧ y.dataSource = x.dataSource ∧
        (x.ticker ≠ t → y = x)) l (sellHolding l t q p id d).1
    ∧ List.Forall₂ (fun x y => y.ticker = x.ticker ∧ y.quantity = x.quantity ∧
        y.companyName = x.companyName ∧ y.averageBuyPrice = x.averageBuyPrice ∧
        y.totalInvestment = x.totalInvestment ∧ y.sector = x.sector ∧
        y.currentPrice = x.currentPrice ∧ y.dayChangeValue = x.dayChangeValue ∧
        y.dataSource = x.dataSource ∧ (x.ticker ≠ t → y = x))
      l (addDividend l t a dd di).1 := by
  constructor
  · cases hfind : l.find? (fun x => x.ticker = t) with
    | none =>
        simp only [sellHolding, hfind]
        exact List.forall₂_same.mpr
          (fun x _ => ⟨rfl, rfl, rfl, rfl, rfl, rfl, rfl, rfl, fun _ => rfl⟩)
    | some h =>
        by_cases hlt : h.quantity < q
        · simp only [sellHolding, hfind, if_pos hlt]
          exact List.forall₂_same.mpr
            (fun x _ => ⟨rfl, rfl, rfl, rfl, rfl, rfl, rfl, rfl, fun _ => rfl⟩)
        · have h1 : (sellHolding l t q p id d).1
              = mutateFirst l t (applySell q (mkSellTx id d q p)) := by
            by_cases hc : h.quantity - q ≤ sellEpsilon <;>
              simp [sellHolding, hfind, hlt, hc]
          rw [h1]
          exact forall₂_mutateFirst l t _
            (fun x => ⟨rfl, rfl, rfl, rfl, rfl, rfl, rfl, rfl, fun _ => rfl⟩)
            (fun x hx => ⟨rfl, rfl, rfl, rfl, rfl, rfl, rfl, rfl, fun hc => absurd hx hc⟩)
  · cases hfind : l.find? (fun x => x.ticker = t) with
    | none =>
        simp only [addDividend, hfind]
        exact List.forall₂_same.mpr
          (fun x _ => ⟨rfl, rfl, rfl, rfl, rfl, rfl, rfl, rfl, rfl, fun _ => rfl⟩)
    | some h =>
        simp only [addDividend, hfind]
        exact forall₂_mutateFirst l t _
          (fun x => ⟨rfl, rfl, rfl, rfl, rfl, rfl, rfl, rfl, rfl, fun _ => rfl⟩)
          (fun x hx => ⟨rfl, rfl, rfl, rfl, rfl, rfl, rfl, rfl, rfl, fun hc => absurd hx hc⟩)

/-- C4: selling an absent ticker, selling more than the held quantity, and
paying a dividend to an absent ticker are all guarded no-ops: the call
returns the ledger argument itself (both the caller's array state and the
returned array equal the input). -/
theorem C4_noop_guards (l : List PortfolioHolding) (t : String) (q p a : ℚ)
    (id d di dd : String) (h : PortfolioHolding) :
    (l.find? (fun x => x.ticker = t) = none →
        sellHolding l t q p id d = (l, l) ∧ addDividend l t a dd di = (l, l))
    ∧ (l.find? (fun x => x.ticker = t) = some h → h.quantity < q →
        sellHolding l t q p id d = (l, l)) := by
  constructor
  · intro hf
    constructor
    · simp [sellHolding, hf]
    · simp [addDividend, hf]
  · intro hf hlt
    simp [sellHolding, hf, hlt]

/-- Witness for C4 with the concrete one-holding ledger ["A" × 10]: ticker
"Z" is absent, and selling 11 > 10 units of "A" is refused. -/
theorem C4_noop_guards_witness :
    (sellHolding [exHoldingA] "Z" 1 1 "i" "d" = ([exHoldingA], [exHoldingA]) ∧
      addDividend [exHoldingA] "Z" 2 "dd" "di" = ([exHoldingA], [exHoldingA])) ∧
    sellHolding [exHoldingA] "A" 11 1 "i" "d" = ([exHoldingA], [exHoldingA]) :=
  ⟨(C4_noop_guards [exHoldingA] "Z" 1 1 2 "i" "d" "di" "dd" exHoldingA).1 (by decide),
   (C4_noop_guards [exHoldingA] "A" 11 1 2 "i" "d" "di" "dd" exHoldingA).2
      (by decide) (by decide)⟩

/-- C5: a valid sell (0 < q ≤ held quantity Q): when Q − q is at most the
epsilon 1/10000 the ticker disappears from the returned ledger entirely;
otherwise the ticker's holding has quantity Q − q and the SELL transaction
(whose cost field holds the proceeds q × price) appended, with every other
field — totalInvestment in particular — unchanged. -/
theorem C5_sell_valid (l : List PortfolioHolding) (t : String) (q p : ℚ)
    (id d : String) (h : PortfolioHolding)
    (hfind : l.find? (fun x => x.ticker = t) = some h)
    (_hpos : 0 < q) (hq : q ≤ h.quantity) :
    (h.quantity - q ≤ sellEpsilon →
        ∀ x ∈ (sellHolding l t q p id d).2, x.ticker ≠ t)
    ∧ (sellEpsilon < h.quantity - q →
        (sellHolding l t q p id d).2.find? (fun x => x.ticker = t)
          = some { h with
              quantity := h.quantity - q,
              transactions := h.transactions ++ [mkSellTx id d q p] }) := by
  have hnlt : ¬ (h.quantity < q) := not_lt.mpr hq
  constructor
  · intro hle x hx
    have h2 : (sellHolding l t q p id d).2
        = (mutateFirst l t (applySell q (mkSellTx id d q p))).filter
            (fun x => ¬ x.ticker = t) := by
      simp [sellHolding, hfind, hnlt, hle]
    rw [h2] at hx
    simpa using List.of_mem_filter hx
  · intro hlt'
    have h2 : (sellHolding l t q p id d).2
        = mutateFirst l t (applySell q (mkSellTx id d q p)) := by
      simp [sellHolding, hfind, hnlt, not_le.mpr hlt']
    rw [h2]
    exact find?_mutateFirst _ hfind (fun x => rfl)

/-- Witness for C5: selling 4 of the 10 held units of "A" keeps "A" with
quantity 10 − 4 and the appended SELL transaction carrying proceeds
4 × 7. -/
theorem C5_sell_valid_witness :
    (sellHolding [exHoldingA] "A" 4 7 "i" "d").2.find? (fun x => x.ticker = "A")
      = some { exHoldingA with
          quantity := exHoldingA.quantity - 4,
          transactions := exHoldingA.transactions ++ [mkSellTx "i" "d" 4 7] } :=
  (C5_sell_valid [exHoldingA] "A" 4 7 "i" "d" exHoldingA
      (by decide) (by decide) (by decide)).2
    (by norm_num [exHoldingA, sellEpsilon])

/-- C10: `sellHolding` never checks that the quantity is positive: with
q ≤ 0 and a held quantity Q > 0 the guard `quantity > holding.quantity`
does not fire, a SELL transaction with quantity q and proceeds q × p is
appended, the holding's quantity becomes Q − q ≥ Q, and the caller's ledger
is not left unchanged. -/
theorem C10_sell_nonpositive (l : List PortfolioHolding) (t : String) (q p : ℚ)
    (id d : String) (h : PortfolioHolding)
    (hfind : l.find? (fun x => x.ticker = t) = some h)
    (hQ : 0 < h.quantity) (hq : q ≤ 0) :
    (sellHolding l t q p id d).1.find? (fun x => x.ticker = t)
      = some { h with
          quantity := h.quantity - q,
          transactions := h.transactions ++ [mkSellTx id d q p] }
    ∧ h.quantity ≤ h.quantity - q
    ∧ (sellHolding l t q p id d).1 ≠ l := by
  have hnlt : ¬ (h.quantity < q) := not_lt.mpr (hq.trans hQ.le)
  have h1 : (sellHolding l t q p id d).1
      = mutateFirst l t (applySell q (mkSellTx id d q p)) := by
    by_cases hc : h.quantity - q ≤ sellEpsilon <;>
      simp [sellHolding, hfind, hnlt, hc]
  refine ⟨by rw [h1]; exact find?_mutateFirst _ hfind (fun x => rfl), by linarith, ?_⟩
  intro heq
  have heq' : mutateFirst l t (applySell q (mkSellTx id d q p)) = l := by rw [← h1, heq]
  have hm := find?_mutateFirst (applySell q (mkSellTx id d q p)) hfind (fun x => rfl)
  rw [heq', hfind] at hm
  have hfh : h = applySell q (mkSellTx id d q p) h := Option.some.inj hm
  have hlen := congrArg (fun x => x.transactions.length) hfh
  simp [applySell] at hlen

/-- Witness for C10: selling −3 units of "A" (held quantity 10) appends the
SELL and raises the quantity to 13, leaving the caller's ledger changed. -/
theorem C10_sell_nonpositive_witness :
    (sellHolding [exHoldingA] "A" (-3) 5 "i" "d").1.find? (fun x => x.ticker = "A")
      = some { exHoldingA with
          quantity := exHoldingA.quantity - (-3),
          transactions := exHoldingA.transactions ++ [mkSellTx "i" "d" (-3) 5] }
    ∧ exHoldingA.quantity ≤ exHoldingA.quantity - (-3)
    ∧ (sellHolding [exHoldingA] "A" (-3) 5 "i" "d").1 ≠ [exHoldingA] :=
  C10_sell_nonpositive [exHoldingA] "A" (-3) 5 "i" "d" exHoldingA
    (by decide) (by decide) (by decide)

theorem aggregate_go (txs : List Transaction) : ∀ a b : ℚ,
    txs.foldl aggregateStep (a, b)
      = (a + (((txs.map txBuyQty).sum) - ((txs.map txSellQty).sum)),
         b + ((txs.map txBuyCost).sum)) := by
  induction txs with
  | nil => intro a b; simp
  | cons t rest ih =>
      intro a b
      rw [List.foldl_cons]
      cases t with
      | buySell id date ty qty pr c =>
          cases ty with
          | buy =>
              rw [show aggregateStep (a, b) (Transaction.buySell id date TxType.buy qty pr c)
                  = (a + qty, b + c) from rfl, ih (a + qty) (b + c)]
              simp only [List.map_cons, List.sum_cons, txBuyQty, txSellQty, txBuyCost,
                Prod.mk.injEq]
              constructor <;> ring
          | sell =>
              rw [show aggregateStep (a, b) (Transaction.buySell id date TxType.sell qty pr c)
                  = (a - qty, b) from rfl, ih (a - qty) b]
              simp only [List.map_cons, List.sum_cons, txBuyQty, txSellQty, txBuyCost,
                Prod.mk.injEq]
              constructor <;> ring
      | dividend id date amt =>
          rw [show aggregateStep (a, b) (Transaction.dividend id date amt) = (a, b) from rfl,
            ih a b]
          simp only [List.map_cons, List.sum_cons, txBuyQty, txSellQty, txBuyCost,
            Prod.mk.injEq]
          constructor <;> ring

/-- C6: the transaction walk used by `addHoldings` yields quantity =
(sum of BUY quantities) − (sum of SELL quantities) and totalInvestment =
(sum of BUY costs); DIVIDEND transactions contribute nothing to either, and
the result is invariant under permutation of the transaction list. -/
theorem C6_aggregate (txs txs2 : List Transaction) :
    aggregate txs
      = (((txs.map txBuyQty).sum) - ((txs.map txSellQty).sum), (txs.map txBuyCost).sum)
    ∧ (txs.Perm txs2 → aggregate txs = aggregate txs2) := by
  have hchar : ∀ l : List Transaction,
      aggregate l = (((l.map txBuyQty).sum) - ((l.map txSellQty).sum), (l.map txBuyCost).sum) := by
    intro l
    rw [aggregate, aggregate_go l 0 0]
    simp
  refine ⟨hchar txs, fun hperm => ?_⟩
  rw [hchar txs, hchar txs2, (hperm.map txBuyQty).sum_eq, (hperm.map txSellQty).sum_eq,
    (hperm.map txBuyCost).sum_eq]

/-- Witness for C6 on a concrete BUY/SELL/DIVIDEND history, including the
permutation moving the dividend to the front. -/
theorem C6_aggregate_witness :
    aggregate [exTxBuyA, exTxSellA, exTxDivA]
      = ((([exTxBuyA, exTxSellA, exTxDivA].map txBuyQty).sum)
          - (([exTxBuyA, exTxSellA, exTxDivA].map txSellQty).sum),
         ([exTxBuyA, exTxSellA, exTxDivA].map txBuyCost).sum)
    ∧ aggregate [exTxBuyA, exTxSellA, exTxDivA] = aggregate [exTxDivA, exTxBuyA, exTxSellA] :=
  ⟨(C6_aggregate [exTxBuyA, exTxSellA, exTxDivA] [exTxDivA, exTxBuyA, exTxSellA]).1,
   (C6_aggregate [exTxBuyA, exTxSellA, exTxDivA] [exTxDivA, exTxBuyA, exTxSellA]).2
      (by decide)⟩

/-- C7: the degenerate-denominator guards: a zero aggregated quantity gives
averageBuyPrice 0, a zero totalInvestment gives totalGainLossPercent 0, and
a non-positive (currentValue − dayGainLoss) gives dayGainLossPercent 0. -/
theorem C7_no_nonfinite (tc : ℚ) (holdings : List PortfolioHolding)
    (mp : List (String × ℚ)) :
    avgBuyPrice 0 tc = 0
    ∧ ((calculatePortfolioMetrics holdings mp).totalInvestment = 0 →
        (calculatePortfolioMetrics holdings mp).totalGainLossPercent = 0)
    ∧ ((calculatePortfolioMetrics holdings mp).currentValue
          - (calculatePortfolioMetrics holdings mp).dayGainLoss ≤ 0 →
        (calculatePortfolioMetrics holdings mp).dayGainLossPercent = 0) := by
  refine ⟨by rw [avgBuyPrice]; simp, ?_, ?_⟩
  · intro h0
    have h1 : (calculatePortfolioMetrics holdings mp).totalInvestment
        = (metricsBase holdings mp).1 := rfl
    have h2 : (calculatePortfolioMetrics holdings mp).totalGainLossPercent
        = if 0 < (metricsBase holdings mp).1
          then (((metricsBase holdings mp).2.1 - (metricsBase holdings mp).1)
              + (metricsBase holdings mp).2.2.2) / (metricsBase holdings mp).1 * 100
          else 0 := rfl
    rw [h1] at h0
    rw [h2, if_neg (by rw [h0]; exact lt_irrefl 0)]
  · intro h0
    have h1 : (calculatePortfolioMetrics holdings mp).currentValue
          - (calculatePortfolioMetrics holdings mp).dayGainLoss
        = (metricsBase holdings mp).2.1 - (metricsBase holdings mp).2.2.1 := rfl
    have h2 : (calculatePortfolioMetrics holdings mp).dayGainLossPercent
        = if 0 < (metricsBase holdings mp).2.1 - (metricsBase holdings mp).2.2.1
          then (metricsBase holdings mp).2.2.1
              / ((metricsBase holdings mp).2.1 - (metricsBase holdings mp).2.2.1) * 100
          else 0 := rfl
    rw [h1] at h0
    rw [h2, if_neg (not_lt.mpr h0)]

/-- Witness for C7 on the empty portfolio, whose totalInvestment is 0 and
whose day-change denominator is 0. -/
theorem C7_no_nonfinite_witness :
    avgBuyPrice 0 5 = 0
    ∧ (calculatePortfolioMetrics [] []).totalGainLossPercent = 0
    ∧ (calculatePortfolioMetrics [] []).dayGainLossPercent = 0 :=
  ⟨(C7_no_nonfinite 5 [] []).1,
   (C7_no_nonfinite 5 [] []).2.1 (by norm_num [calculatePortfolioMetrics, metricsBase]),
   (C7_no_nonfinite 5 [] []).2.2 (by norm_num [calculatePortfolioMetrics, metricsBase])⟩

theorem metricsBase_go (mp : List (String × ℚ)) (hs : List PortfolioHolding) :
    ∀ a b c d : ℚ,
      hs.foldl (metricsStep mp) (a, b, c, d)
        = (a + (hs.map PortfolioHolding.totalInvestment).sum,
           b + (hs.map (holdingCurrentValue mp)).sum,
           c + (hs.map holdingDayChange).sum,
           d + (hs.map holdingDividends).sum) := by
  induction hs with
  | nil => intro a b c d; simp
  | cons x rest ih =>
      intro a b c d
      rw [List.foldl_cons,
        show metricsStep mp (a, b, c, d) x
          = (a + x.totalInvestment, b + holdingCurrentValue mp x,
             c + holdingDayChange x, d + holdingDividends x) from rfl,
        ih (a + x.totalInvestment) (b + holdingCurrentValue mp x)
          (c + holdingDayChange x) (d + holdingDividends x)]
      simp only [List.map_cons, List.sum_cons, Prod.mk.injEq]
      refine ⟨by ring, by ring, by ring, by ring⟩

/-- C8 counterexample: the claim's valuation formula (override price if
present, else live price, else at cost) fails on the code because JS `price ?
price * qty : totalInvestment` also treats a present but zero price as
unknown: with a manual override of 0 for ticker "C" (quantity 5,
totalInvestment 100) the code values the holding at 100, the claim's formula
at 0 × 5 = 0. -/
theorem C8_counterexample :
    (calculatePortfolioMetrics [exHoldingC] [("C", 0)]).currentValue
      ≠ ([exHoldingC].map (claimedHoldingValue [("C", 0)])).sum := by
  have h1 : (calculatePortfolioMetrics [exHoldingC] [("C", 0)]).currentValue = 100 := by
    have hv : holdingCurrentValue [("C", 0)] exHoldingC = 100 := by
      simp [holdingCurrentValue, effectivePrice, lookupPrice, exHoldingC]
    have hb : (calculatePortfolioMetrics [exHoldingC] [("C", 0)]).currentValue
        = (metricsBase [exHoldingC] [("C", 0)]).2.1 := rfl
    rw [hb, metricsBase, metricsBase_go]
    simp [hv]
  have h2 : ([exHoldingC].map (claimedHoldingValue [("C", 0)])).sum = 0 := by
    simp [claimedHoldingValue, effectivePrice, lookupPrice, exHoldingC]
  rw [h1, h2]
  norm_num

/-- C8 (amended): currentValue is the sum over holdings of the per-holding
value, where a holding is valued at (override-else-live) price × quantity
when that price exists and is nonzero, and at its totalInvestment (at cost)
when the price is missing or zero; in particular an unknown-price holding
contributes its totalInvestment, never 0. -/
theorem C8_currentValue (holdings : List PortfolioHolding) (mp : List (String × ℚ))
    (h : PortfolioHolding) (pr : ℚ) :
    (calculatePortfolioMetrics holdings mp).currentValue
      = (holdings.map (holdingCurrentValue mp)).sum
    ∧ (effectivePrice mp h = none → holdingCurrentValue mp h = h.totalInvestment)
    ∧ (effectivePrice mp h = some pr → pr ≠ 0 →
        holdingCurrentValue mp h = pr * h.quantity)
    ∧ (effectivePrice mp h = some 0 → holdingCurrentValue mp h = h.totalInvestment) := by
  refine ⟨?_, ?_, ?_, ?_⟩
  · have hb : (calculatePortfolioMetrics holdings mp).currentValue
        = (metricsBase holdings mp).2.1 := rfl
    rw [hb, metricsBase, metricsBase_go]
    simp
  · intro heff
    simp [holdingCurrentValue, heff]
  · intro heff hne
    simp [holdingCurrentValue, heff, hne]
  · intro heff
    simp [holdingCurrentValue, heff]

/-- Witness for C8: the one-holding portfolio ["C"] with no known price is
valued at cost (100); holding "B" with live price 5 is valued at 5 × 1; and
a zero manual override for "C" again values it at cost. -/
theorem C8_currentValue_witness :
    (calculatePortfolioMetrics [exHoldingC] []).currentValue
        = ([exHoldingC].map (holdingCurrentValue [])).sum
    ∧ holdingCurrentValue [] exHoldingC = exHoldingC.totalInvestment
    ∧ holdingCurrentValue [] exHoldingB = 5 * exHoldingB.quantity
    ∧ holdingCurrentValue [("C", 0)] exHoldingC = exHoldingC.totalInvestment :=
  ⟨(C8_currentValue [exHoldingC] [] exHoldingC 5).1,
   (C8_currentValue [exHoldingC] [] exHoldingC 5).2.1 (by rfl),
   (C8_currentValue [exHoldingC] [] exHoldingB 5).2.2.1 (by rfl) (by norm_num),
   (C8_currentValue [exHoldingC] [("C", 0)] exHoldingC 5).2.2.2 (by rfl)⟩

theorem findIdx?_append_singleton {α : Type} {l : List α} {p : α → Bool} {x : α}
    (hnone : l.findIdx? p = none) (hx : p x = true) :
    (l ++ [x]).findIdx? p = some l.length := by
  rw [List.findIdx?_eq_none_iff] at hnone
  have main : ∀ (lq : List α) (i : Nat), (∀ y ∈ lq, p y = false) →
      List.findIdx? p (lq ++ [x]) i = some (i + lq.length) := by
    intro lq
    induction lq with
    | nil => intro i _; simp [List.findIdx?_cons, hx]
    | cons a t ih =>
        intro i hall
        have ha : p a = false := hall a (List.mem_cons_self a t)
        rw [List.cons_append, List.findIdx?_cons, ha]
        simp only [Bool.false_eq_true, if_false]
        rw [ih (i + 1) (fun y hy => hall y (List.mem_cons_of_mem a hy))]
        congr 1
        simp only [List.length_cons]
        omega
  simpa using main l 0 hnone

theorem set_append_singleton {α : Type} (l : List α) (x y : α) :
    (l ++ [x]).set l.length y = l ++ [y] := by
  rw [List.set_append_right _ _ (le_refl l.length), Nat.sub_self]
  rfl

theorem findIdx?_replicate_none {α : Type} {p : α → Bool} {a : α} (ha : p a = false)
    (n : Nat) : (List.replicate n a).findIdx? p = none := by
  rw [List.findIdx?_eq_none_iff]
  intro x hx
  rw [List.eq_of_mem_replicate hx]
  exact ha

/-- C9: the snapshot tracker: (i) a history of at most 365 entries stays at
most 365 entries; (ii) recording twice on the same day (each stored
timestamp starting with that day) yields a single new entry holding the
last value; (iii) recording on a day matching no stored entry appends one
entry; (iv) recording into a full 365-entry history with no same-day entry
drops exactly the oldest entry and appends the new one. -/
theorem C9_snapshot_tracker (history : List PortfolioSnapshot)
    (today now1 now2 day2 nowd : String) (v v1 v2 vd : ℚ) :
    (history.length ≤ 365 → (addPortfolioSnapshot history today now1 v).length ≤ 365)
    ∧ (strStartsWith now1 today = true →
        history.findIdx? (fun s => strStartsWith s.date today) = none →
        history.length < 365 →
        addPortfolioSnapshot (addPortfolioSnapshot history today now1 v1) today now2 v2
          = history ++ [{ date := now2, value := v2 }])
    ∧ (history.findIdx? (fun s => strStartsWith s.date day2) = none →
        history.length < 365 →
        addPortfolioSnapshot history day2 nowd vd
          = history ++ [{ date := nowd, value := vd }])
    ∧ (history.findIdx? (fun s => strStartsWith s.date today) = none →
        history.length = 365 →
        addPortfolioSnapshot history today now1 v
          = history.tail ++ [{ date := now1, value := v }]) := by
  have happend : ∀ (td ni : String) (vv : ℚ),
      history.findIdx? (fun s => strStartsWith s.date td) = none →
      history.length < 365 →
      addPortfolioSnapshot history td ni vv = history ++ [{ date := ni, value := vv }] := by
    intro td ni vv hn hlen
    have hc : ¬ 365 < (history ++ [({ date := ni, value := vv } : PortfolioSnapshot)]).length := by
      simp only [List.length_append, List.length_cons, List.length_nil]
      omega
    simp only [addPortfolioSnapshot, hn, if_neg hc]
  refine ⟨?_, ?_, ?_, ?_⟩
  · intro hlen
    cases hidx : history.findIdx? (fun s => strStartsWith s.date today) with
    | some i =>
        simp only [addPortfolioSnapshot, hidx]
        split_ifs with hif
        · simp only [List.length_tail, List.length_set]
          omega
        · simpa using hlen
    | none =>
        simp only [addPortfolioSnapshot, hidx]
        split_ifs with hif
        · simp only [List.length_tail, List.length_append, List.length_cons, List.length_nil]
          omega
        · simp only [List.length_append, List.length_cons, List.length_nil] at hif ⊢
          omega
  · intro hsw hn hlen
    rw [happend today now1 v1 hn hlen]
    have hidx2 : (history ++ [({ date := now1, value := v1 } : PortfolioSnapshot)]).findIdx?
        (fun s => strStartsWith s.date today) = some history.length :=
      findIdx?_append_singleton hn hsw
    have hc : ¬ 365 < ((history ++ [({ date := now1, value := v1 } : PortfolioSnapshot)]).set
        history.length { date := now2, value := v2 }).length := by
      simp only [List.length_set, List.length_append, List.length_cons, List.length_nil]
      omega
    simp only [addPortfolioSnapshot, hidx2, if_neg hc]
    rw [set_append_singleton]
  · intro hn hlen
    exact happend day2 nowd vd hn hlen
  · intro hn hlen
    have hc : 365 < (history ++ [({ date := now1, value := v } : PortfolioSnapshot)]).length := by
      simp only [List.length_append, List.length_cons, List.length_nil]
      omega
    simp only [addPortfolioSnapshot, hn, if_pos hc]
    cases history with
    | nil => simp at hlen
    | cons a t => simp

/-- Witness for C9: concrete date strings exercising the length bound, the
same-day replace (100 then 150 on 2026-10-12 gives one entry with 150), the
next-day append, and the eviction from a full 365-entry history. -/
theorem C9_snapshot_tracker_witness :
    (addPortfolioSnapshot [] "2026-10-12" "2026-10-12T09:00:00.000Z" 100).length ≤ 365
    ∧ addPortfolioSnapshot
        (addPortfolioSnapshot [] "2026-10-12" "2026-10-12T09:00:00.000Z" 100)
        "2026-10-12" "2026-10-12T17:00:00.000Z" 150
        = [] ++ [{ date := "2026-10-12T17:00:00.000Z", value := 150 }]
    ∧ addPortfolioSnapshot [{ date := "2026-10-12T17:00:00.000Z", value := 150 }]
        "2026-10-13" "2026-10-13T09:00:00.000Z" 160
        = [{ date := "2026-10-12T17:00:00.000Z", value := 150 }]
            ++ [{ date := "2026-10-13T09:00:00.000Z", value := 160 }]
    ∧ addPortfolioSnapshot (List.replicate 365 { date := "2020-01-01", value := 1 })
        "2026-10-12" "2026-10-12T09:00:00.000Z" 100
        = (List.replicate 365 ({ date := "2020-01-01", value := 1 } : PortfolioSnapshot)).tail
            ++ [{ date := "2026-10-12T09:00:00.000Z", value := 100 }] :=
  ⟨(C9_snapshot_tracker [] "2026-10-12" "x" "x" "x" "x" 100 100 100 100).1 (by simp),
   (C9_snapshot_tracker [] "2026-10-12" "2026-10-12T09:00:00.000Z"
      "2026-10-12T17:00:00.000Z" "x" "x" 1 100 150 1).2.1 (by decide) (by decide) (by simp),
   (C9_snapshot_tracker [{ date := "2026-10-12T17:00:00.000Z", value := 150 }] "y" "x" "x"
      "2026-10-13" "2026-10-13T09:00:00.000Z" 1 1 1 160).2.2.1 (by decide) (by simp),
   (C9_snapshot_tracker (List.replicate 365 { date := "2020-01-01", value := 1 })
      "2026-10-12" "2026-10-12T09:00:00.000Z" "x" "x" "x" 100 1 1 1).2.2.2
      (findIdx?_replicate_none (by decide) 365) (List.length_replicate 365 _)⟩

end Portfolio
